import Mathlib

/-!
Shallow embedding of the lastpassreportingcli aggregation/metrics/rendering
core (src/lastpassreportingcli/lastpassreportingcli.py,
src/lastpassreportingcli/library/datamodels.py,
src/lastpassreportingcli/library/validators.py), together with proofs about
the frozen specification claims.

Modelling conventions:
* Timestamps (Python `datetime` values) are modelled as `Int`; only their
  linear order and equality are used by the code under verification.
* A secret's `shared_folder` attribute (an external lastpasslib object whose
  `shared_name` field is the only part read here) is modelled as
  `Option String` holding that shared name; `none` models Python `None`.
* Percentages are computed over `ℚ`; Python's `round(x, 2)` is modelled as
  rational rounding to a multiple of 1/100 (`round2`).  Python rounds
  half-to-even on binary floats; the rounding-tolerance statements proved
  below only use `|round y - y| ≤ 1/2`, which holds for either tie rule.
* Fallible code (Python `KeyError` / `ZeroDivisionError` / attribute errors)
  is modelled with `Option`, `none` being the raised-exception outcome.
* Process termination (`raise SystemExit(arg)`) is modelled by `ExitArg`
  together with Python's documented exit-status semantics (`pyExitStatus`):
  an integer argument is the status, `None` means status 0, and any other
  object is printed and the status is 1.
-/

/-- A secret as supplied by the external vault client (lastpasslib).
Field names follow the attributes the repository reads. -/
structure Secret where
  id : String
  sname : String
  url : String
  stype : String
  username : Option String
  password : String
  last_modified_datetime : Int
  last_touch_datetime : Int
  last_password_change_datetime : Int
  secret_updated_datetime : Int
  shared_folder : Option String
deriving DecidableEq, Repr

/-- A folder as supplied by the external vault client.  `full_path` is an
attribute of the external `Folder` object; for folders constructed by the
rollup aggregator it is derived by `Folder.mkAggregate` below. -/
structure Folder where
  fname : String
  path : String
  full_path : String
  is_personal : Bool
  is_in_root : Bool
  secrets : List Secret
deriving DecidableEq, Repr

/-- lastpasslib `Folder.add_secret`: appends one secret to the folder. -/
def Folder.add_secret (f : Folder) (s : Secret) : Folder :=
  { f with secrets := f.secrets ++ [s] }

/-- lastpasslib `Folder.add_secrets`: appends a list of secrets. -/
def Folder.add_secrets (f : Folder) (ss : List Secret) : Folder :=
  { f with secrets := f.secrets ++ ss }

/-- The `Folder(folder.name, folder.path, is_personal=folder.is_personal)`
construction used by `get_folder_metrics`: a fresh folder with no secrets.
Modelled from the spec: the external constructor derives the full path from
the name and the path ("a full path (name+path)", spec section 3). -/
def Folder.mkAggregate (f : Folder) : Folder :=
  { fname := f.fname
    path := f.path
    full_path := f.fname ++ f.path
    is_personal := f.is_personal
    is_in_root := f.is_in_root
    secrets := [] }

/-- `FolderMetrics.check_if_is_secret_in_warning` (datamodels.py, lines
147-155): the conjunction of the five conditions tested by the `all([...])`
call, in source order. -/
def check_if_is_secret_in_warning (secret : Secret) (cutoff_date : Int)
    (warning_whitelist : List String) : Bool :=
  if (secret.last_modified_datetime ≠ secret.secret_updated_datetime) ∧
     (secret.secret_updated_datetime < cutoff_date) ∧
     (secret.last_modified_datetime > cutoff_date) ∧
     (secret.stype = "Password" ∧ secret.password ≠ "") ∧
     (secret.id ∉ warning_whitelist)
  then true else false

/-- `FolderMetrics` (datamodels.py): a folder paired with the cutoff date and
the warning whitelist. -/
structure FolderMetrics where
  folder : Folder
  cutoff_date : Int
  warning_whitelist : List String
deriving DecidableEq, Repr

/-- `FolderMetrics.name`: the wrapped folder's name. -/
def FolderMetrics.fname (m : FolderMetrics) : String := m.folder.fname

/-- `FolderMetrics.full_path`: the wrapped folder's full path. -/
def FolderMetrics.full_path (m : FolderMetrics) : String := m.folder.full_path

/-- `FolderMetrics.is_personal`. -/
def FolderMetrics.is_personal (m : FolderMetrics) : Bool := m.folder.is_personal

/-- `FolderMetrics.is_secret_in_warning`. -/
def FolderMetrics.is_secret_in_warning (m : FolderMetrics) (s : Secret) : Bool :=
  check_if_is_secret_in_warning s m.cutoff_date m.warning_whitelist

/-- `FolderMetrics.number_of_secrets`. -/
def FolderMetrics.number_of_secrets (m : FolderMetrics) : Nat :=
  m.folder.secrets.length

/-- `FolderMetrics.number_of_updated_secrets`: secrets whose last-modified
timestamp is strictly greater than the cutoff date. -/
def FolderMetrics.number_of_updated_secrets (m : FolderMetrics) : Nat :=
  (m.folder.secrets.filter (fun s => m.cutoff_date < s.last_modified_datetime)).length

/-- `FolderMetrics.number_of_secrets_to_update`. -/
def FolderMetrics.number_of_secrets_to_update (m : FolderMetrics) : Nat :=
  m.number_of_secrets - m.number_of_updated_secrets

/-- Python `round(q, 2)` over exact rationals: round `q * 100` to the nearest
integer and divide by 100. -/
def round2 (q : ℚ) : ℚ := ((round (q * 100) : ℤ) : ℚ) / 100

/-- `FolderMetrics.percentage_done` (datamodels.py, lines 130-135).  The
Python `or 0` replaces a floating 0.0 by the integer 0, which has the same
rational value and is therefore dropped here. -/
def FolderMetrics.percentage_done (m : FolderMetrics) : ℚ :=
  if m.number_of_secrets ≠ 0 then
    let percentage := round2 ((m.number_of_updated_secrets : ℚ) / (m.number_of_secrets : ℚ) * 100)
    if percentage < 100 then percentage else 100
  else 100

/-- `FolderMetrics.percentage_left` (datamodels.py, lines 137-142). -/
def FolderMetrics.percentage_left (m : FolderMetrics) : ℚ :=
  if m.number_of_secrets ≠ 0 then
    round2 (100 - (m.number_of_updated_secrets : ℚ) / (m.number_of_secrets : ℚ) * 100)
  else 0

/-- ASCII whitespace accepted (and stripped) by Python's `int(str)`.
CPython additionally strips some Unicode space characters; entries here are
ASCII strings so only the ASCII set is modelled. -/
def isPySpace (c : Char) : Bool :=
  c = ' ' || c = '\t' || c = '\n' || c = '\x0b' || c = '\x0c' || c = '\r'

/-- Strip leading and trailing whitespace, as Python's `int(str)` does. -/
def stripPySpaces (l : List Char) : List Char :=
  ((l.dropWhile isPySpace).reverse.dropWhile isPySpace).reverse

/-- The tail of a CPython decimal digit run: digits, with single underscores
allowed only between digits (`1_0` parses, `1__0`, `1_` and `_1` do not). -/
def pyDigitTail : List Char → Bool
  | [] => true
  | c :: rest =>
    if c = '_' then
      match rest with
      | [] => false
      | c' :: rest' => c'.isDigit && pyDigitTail rest'
    else c.isDigit && pyDigitTail rest

/-- Drop the optional single leading sign of a Python integer literal. -/
def pyStripSign (l : List Char) : List Char :=
  match l with
  | [] => []
  | c :: rest => if c = '+' ∨ c = '-' then rest else c :: rest

/-- Whether Python's `int(secret_id)` succeeds (base 10): optional
surrounding whitespace, an optional single sign, then a nonempty digit run
with single underscores between digits. -/
def pyIntParses (s : String) : Bool :=
  match pyStripSign (stripPySpaces s.toList) with
  | [] => false
  | c :: rest => c.isDigit && pyDigitTail rest

/-- `is_valid_secret_id` (validators.py, lines 112-117): `int(secret_id)`
must succeed and the raw string length must be 18 or 19. -/
def is_valid_secret_id (secret_id : String) : Bool :=
  pyIntParses secret_id && (decide (18 ≤ secret_id.length) && decide (secret_id.length ≤ 19))

/-- `validate_secret_ids` (validators.py, lines 120-124). -/
def validate_secret_ids (secret_ids : List String) : Bool × List String :=
  let problematic_ids := secret_ids.filter (fun i => !is_valid_secret_id i)
  if problematic_ids ≠ [] then (false, problematic_ids) else (true, secret_ids)

/-- An insertion-ordered string-keyed dictionary of folders, modelling the
Python `dict` built and mutated by `get_folder_metrics`. -/
abbrev FolderDict := List (String × Folder)

/-- Dict-comprehension insertion: a repeated key overwrites the stored value
in place (keeping the original position), as Python dicts do. -/
def dictInsert (k : String) (v : Folder) : FolderDict → FolderDict
  | [] => [(k, v)]
  | kv :: rest => if kv.1 = k then (k, v) :: rest else kv :: dictInsert k v rest

/-- Whether a key is present in the dictionary. -/
def dictHasKey (d : FolderDict) (k : String) : Bool := d.any (fun kv => kv.1 = k)

/-- `d[k] = g(d[k])` on the Python dict: `none` models the `KeyError` raised
when the key is absent. -/
def dictUpdate (k : String) (g : Folder → Folder) : FolderDict → Option FolderDict
  | [] => none
  | kv :: rest =>
    if kv.1 = k then some ((kv.1, g kv.2) :: rest)
    else (dictUpdate k g rest).map (fun d => kv :: d)

/-- The `aggregate_root_folders` dict comprehension of `get_folder_metrics`
(lastpassreportingcli.py, lines 200-201): one fresh empty folder per
root-level folder, keyed by the folder's name. -/
def initRootDict (folders : List Folder) : FolderDict :=
  (folders.filter (fun f => f.is_in_root)).foldl
    (fun d f => dictInsert f.fname (Folder.mkAggregate f) d) []

/-- The `for secret in shared_secrets` loop of `get_folder_metrics` (lines
202-203): each shared secret is appended to the aggregate folder keyed by its
shared folder name.  `none` models the `KeyError` (no matching root folder)
or the attribute error on a missing shared-folder object. -/
def add_shared_secrets : List Secret → FolderDict → Option FolderDict
  | [], d => some d
  | s :: rest, d =>
    match s.shared_folder with
    | some n =>
      match dictUpdate n (fun f => f.add_secret s) d with
      | some d' => add_shared_secrets rest d'
      | none => none
    | none => none

/-- `get_folder_metrics` (lastpassreportingcli.py, lines 197-207). -/
def get_folder_metrics (secrets : List Secret) (folders : List Folder)
    (cutoff_date : Int) (warning_whitelist : List String) :
    Option (List FolderMetrics) :=
  let shared_secrets := secrets.filter (fun s => s.shared_folder.isSome)
  let personal_secrets := secrets.filter (fun s => !s.shared_folder.isSome)
  match add_shared_secrets shared_secrets (initRootDict folders) with
  | none => none
  | some d =>
    match dictUpdate "\\" (fun f => f.add_secrets personal_secrets) d with
    | none => none
    | some d' => some (d'.map (fun kv => ⟨kv.2, cutoff_date, warning_whitelist⟩))

/-- `final_report_data` (lastpassreportingcli.py, lines 210-218), reduced to
the quantities interpolated into the returned string: total secrets, total
updated, total left, percent done and percent left.  The Python division
`total_updated_secrets / total_secrets` raises `ZeroDivisionError` when
`total_secrets` is zero; that outcome is modelled as `none`. -/
def final_report_data (folder_metrics : List FolderMetrics) :
    Option (Nat × Nat × Nat × ℚ × ℚ) :=
  let total_secrets := (folder_metrics.map FolderMetrics.number_of_secrets).sum
  let total_updated_secrets :=
    (folder_metrics.map FolderMetrics.number_of_updated_secrets).sum
  let total_left_to_update := total_secrets - total_updated_secrets
  if total_secrets = 0 then none
  else
    let percent_done := (total_updated_secrets : ℚ) / (total_secrets : ℚ) * 100
    some (total_secrets, total_updated_secrets, total_left_to_update,
          percent_done, 100 - percent_done)

/-- The `sort_criteria` comparison of `create_report` as a boolean "key of
`a` is at most key of `b`": folder name when sorting on name, otherwise the
percentage done. -/
def report_key_le (sort_on : String) (a b : FolderMetrics) : Bool :=
  if sort_on = "name" then decide (a.fname ≤ b.fname)
  else decide (a.percentage_done ≤ b.percentage_done)

/-- The effective row order of Python's `list.sort(key=sort_criteria,
reverse=reverse_sort)`: with `reverse` the comparison is flipped while ties
keep their original relative order. -/
def python_sort_le (sort_on : String) (reverse_sort : Bool)
    (a b : FolderMetrics) : Prop :=
  (if reverse_sort then report_key_le sort_on b a else report_key_le sort_on a b) = true

instance (sort_on : String) (reverse_sort : Bool) :
    DecidableRel (python_sort_le sort_on reverse_sort) := fun a b =>
  instDecidableEqBool
    (if reverse_sort then report_key_le sort_on b a else report_key_le sort_on a b) true

/-- Python's `list.sort` is a stable sort; a stable sort is determined
uniquely by the total comparison and the input order, so it is modelled by
the (stable) insertion sort. -/
def python_list_sort (sort_on : String) (reverse_sort : Bool)
    (l : List FolderMetrics) : List FolderMetrics :=
  List.insertionSort (python_sort_le sort_on reverse_sort) l

/-- `create_report` (lastpassreportingcli.py, lines 221-245), reduced to the
data that determines the printed output: for each rendered table the list of
folder metrics in row order (each printed row is the image of one entry
under `PresentationFolder.presentation_row`, an order-preserving map), and
the `final_report_data` summary computed from `folder_metrics` when
reporting on `all` and otherwise from the last table's `metrics_data`. -/
def create_report (folder_metrics : List FolderMetrics)
    (report_on sort_on : String) (reverse_sort : Bool) :
    List (List FolderMetrics) × Option (Nat × Nat × Nat × ℚ × ℚ) :=
  let tables := if report_on = "all" then ["personal", "shared"] else [report_on]
  let table_data := tables.map (fun t =>
    python_list_sort sort_on reverse_sort
      (folder_metrics.filter (fun f =>
        if t = "personal" then f.is_personal else !f.is_personal)))
  let metrics := if report_on = "all" then folder_metrics else (table_data.getLast?.getD [])
  (table_data, final_report_data metrics)

/-- The argument of a Python `SystemExit` (or `sys.exit`) call. -/
inductive ExitArg
  | intCode (n : Int)
  | message (s : String)
  | noArg
deriving DecidableEq, Repr

/-- Python's documented process exit status for a `SystemExit` argument: an
integer is the status itself, `None` gives status 0, and any other object is
printed to stderr and the status is 1. -/
def pyExitStatus : ExitArg → Int
  | .intCode n => n
  | .message _ => 1
  | .noArg => 0

/-- The external vault client object: the repository only reads its list of
folders (each folder carrying its secrets). -/
structure Lastpass where
  folders : List Folder
deriving DecidableEq, Repr

/-- `secret.username if hasattr(secret, 'username') else secret.type`
(lastpassreportingcli.py, line 283). -/
def username_or_type (secret : Secret) : String :=
  match secret.username with
  | some u => u
  | none => secret.stype

/-- Python's `str()` of a boolean, as written into the CSV warning column. -/
def pyBoolStr (b : Bool) : String := if b then "True" else "False"

/-- The CSV header row of `export_secret_state` (line 274). -/
def csv_headers : List String :=
  ["full_path", "id", "name", "url", "username", "last_modified",
   "last_touched", "last_password_modified", "status", "warning"]

/-- One CSV data row of `export_secret_state` (lines 279-290), with every
field rendered as the string the csv writer emits. -/
def csv_row (folder : Folder) (secret : Secret) (cutoff_date : Int)
    (warning_whitelist : List String) : List String :=
  [folder.full_path,
   secret.id,
   secret.sname,
   secret.url,
   username_or_type secret,
   toString secret.last_modified_datetime,
   toString secret.last_touch_datetime,
   toString secret.last_password_change_datetime,
   if secret.secret_updated_datetime < cutoff_date then "NOT_OK" else "OK",
   pyBoolStr (check_if_is_secret_in_warning secret cutoff_date warning_whitelist)]

/-- The nested `for folder in lastpass.folders: for secret in folder.secrets`
row accumulation of `export_secret_state` (lines 276-290). -/
def export_rows (folders : List Folder) (cutoff_date : Int)
    (warning_whitelist : List String) : List (List String) :=
  folders.flatMap (fun folder =>
    folder.secrets.map (fun s => csv_row folder s cutoff_date warning_whitelist))

/-- `export_secret_state` (lastpassreportingcli.py, lines 273-296): the CSV
records written to the file (header first, then one row per secret), paired
with the `SystemExit` argument the function raises after writing. -/
def export_secret_state (lastpass : Lastpass) (filename : String)
    (cutoff_date : Int) (warning_whitelist : List String) :
    List (List String) × ExitArg :=
  (csv_headers :: export_rows lastpass.folders cutoff_date warning_whitelist,
   ExitArg.message ("Exported secret data to " ++ filename ++ "."))

/-- The per-key content of an aggregate folder produced by the rollup: the
shared secrets declaring that key as their shared folder name, followed (for
the reserved personal key) by all personal secrets. -/
def aggContent (shared_secrets personal_secrets : List Secret) (k : String) :
    List Secret :=
  shared_secrets.filter (fun s => s.shared_folder = some k) ++
    (if k = "\\" then personal_secrets else [])

/-- Apply a key-indexed function to every stored folder of a dictionary. -/
def dictMapVals (g : String → Folder → Folder) (d : FolderDict) : FolderDict :=
  d.map (fun kv => (kv.1, g kv.1 kv.2))

/-! ### Concrete example data used by witnesses and counterexamples -/

/-- A password-type secret whose last-modified timestamp equals the cutoff
date used in the examples (100) while its password field changed before it. -/
def exSecretBase : Secret :=
  { id := "100000000000000001"
    sname := "example"
    url := "https://example.com"
    stype := "Password"
    username := some "user"
    password := "pw"
    last_modified_datetime := 100
    last_touch_datetime := 90
    last_password_change_datetime := 50
    secret_updated_datetime := 50
    shared_folder := none }

/-- As `exSecretBase` but modified strictly after the cutoff. -/
def exSecretWarn : Secret := { exSecretBase with last_modified_datetime := 101 }

/-- As `exSecretWarn` but a secure note rather than a password. -/
def exSecretNote : Secret := { exSecretWarn with stype := "SecureNote" }

/-- A folder holding one secret. -/
def exFolderOne : Folder :=
  { fname := "F", path := "\\", full_path := "F\\", is_personal := true
    is_in_root := true, secrets := [exSecretBase] }

/-- Metrics over a folder with no secrets. -/
def exMetricsEmpty : FolderMetrics :=
  ⟨{ fname := "E", path := "", full_path := "E", is_personal := true
     is_in_root := true, secrets := [] }, 100, []⟩

/-- Metrics over `exFolderOne`. -/
def exMetricsOne : FolderMetrics := ⟨exFolderOne, 100, []⟩

/-- A vault with a single folder holding a single secret. -/
def exVaultOne : Lastpass := ⟨[exFolderOne]⟩

/-- Personal root folder whose name precedes `exM8b`'s while its full path
(name ++ path) follows it. -/
def exM8a : FolderMetrics :=
  ⟨Folder.mkAggregate
    { fname := "a", path := "z", full_path := "az", is_personal := true
      is_in_root := true, secrets := [] }, 100, []⟩

/-- Personal root folder whose name follows `exM8a`'s while its full path
(name ++ path) precedes it. -/
def exM8b : FolderMetrics :=
  ⟨Folder.mkAggregate
    { fname := "ab", path := "a", full_path := "aba", is_personal := true
      is_in_root := true, secrets := [] }, 100, []⟩

/-- A password secret with a given id suffix and last-modified timestamp. -/
def mkTestSecret (k : Nat) (lm : Int) : Secret :=
  { id := toString k, sname := "s", url := "", stype := "Password"
    username := none, password := "p", last_modified_datetime := lm
    last_touch_datetime := 0, last_password_change_datetime := 0
    secret_updated_datetime := lm, shared_folder := none }

/-- A personal root folder with `updated` secrets modified after the cutoff
(100) and `stale` secrets modified before it. -/
def mkPercFolder (fname : String) (updated stale : Nat) : Folder :=
  { fname := fname, path := "", full_path := fname, is_personal := true
    is_in_root := true
    secrets := (List.range updated).map (fun k => mkTestSecret k 200) ++
               (List.range stale).map (fun k => mkTestSecret (100 + k) 0) }

/-- A folder 30 percent done at cutoff 100. -/
def exM30 : FolderMetrics := ⟨mkPercFolder "p30" 3 7, 100, []⟩

/-- A folder 90 percent done at cutoff 100. -/
def exM90 : FolderMetrics := ⟨mkPercFolder "p90" 9 1, 100, []⟩

/-- A folder 60 percent done at cutoff 100. -/
def exM60 : FolderMetrics := ⟨mkPercFolder "p60" 6 4, 100, []⟩

/-- The reserved personal root folder. -/
def exRootPersonal : Folder :=
  { fname := "\\", path := "", full_path := "\\", is_personal := true
    is_in_root := true, secrets := [] }

/-- A shared root folder named Shared1. -/
def exRootShared : Folder :=
  { fname := "Shared1", path := "", full_path := "Shared1"
    is_personal := false, is_in_root := true, secrets := [] }

/-- A secret belonging to the shared folder Shared1. -/
def exSecretShared : Secret :=
  { exSecretBase with id := "100000000000000002", shared_folder := some "Shared1" }

/-! ### Claim theorems -/

/-- C1 (counterexample): with the last-modified timestamp exactly equal to
the cutoff, all five conditions of the claim hold with reading (c) as "at or
after the cutoff", yet the code returns false — the code tests strictly
after. -/
theorem c1_counterexample :
    check_if_is_secret_in_warning exSecretBase 100 [] = false ∧
    exSecretBase.last_modified_datetime ≠ exSecretBase.secret_updated_datetime ∧
    exSecretBase.secret_updated_datetime < 100 ∧
    100 ≤ exSecretBase.last_modified_datetime ∧
    exSecretBase.stype = "Password" ∧ exSecretBase.password ≠ "" ∧
    exSecretBase.id ∉ ([] : List String) := by
  decide

/-- C1 (amended): `is_secret_in_warning` returns true iff (a) last-modified
differs from the password-change timestamp, (b) the password-change
timestamp is before the cutoff, (c) the last-modified timestamp is strictly
after the cutoff, (d) the secret is a password with a non-empty password
value, and (e) its id is not whitelisted. -/
theorem c1_warning_characterization (secret : Secret) (cutoff_date : Int)
    (warning_whitelist : List String) :
    check_if_is_secret_in_warning secret cutoff_date warning_whitelist = true ↔
      (secret.last_modified_datetime ≠ secret.secret_updated_datetime ∧
       secret.secret_updated_datetime < cutoff_date ∧
       cutoff_date < secret.last_modified_datetime ∧
       (secret.stype = "Password" ∧ secret.password ≠ "") ∧
       secret.id ∉ warning_whitelist) := by
  unfold check_if_is_secret_in_warning
  split
  next h => simpa using h
  next h => simpa using h

/-- Witness for C1's amended theorem at a concrete warning secret. -/
theorem c1_warning_characterization_witness :
    check_if_is_secret_in_warning exSecretWarn 100 [] = true :=
  (c1_warning_characterization exSecretWarn 100 []).mpr (by decide)

/-- C6: a whitelisted id forces the warning check to false regardless of
timestamps, and a non-password type forces it to false regardless of
whitelist and timestamps. -/
theorem c6_whitelist_and_type_eliminate_warning (secret : Secret)
    (cutoff_date : Int) (warning_whitelist : List String) :
    (secret.id ∈ warning_whitelist →
      check_if_is_secret_in_warning secret cutoff_date warning_whitelist = false) ∧
    (secret.stype ≠ "Password" →
      check_if_is_secret_in_warning secret cutoff_date warning_whitelist = false) := by
  constructor
  · intro h
    unfold check_if_is_secret_in_warning
    split
    next hc => exact absurd h hc.2.2.2.2
    next => rfl
  · intro h
    unfold check_if_is_secret_in_warning
    split
    next hc => exact absurd hc.2.2.2.1.1 h
    next => rfl

/-- Witness for C6 at a whitelisted secret and at a secure note. -/
theorem c6_whitelist_and_type_eliminate_warning_witness :
    check_if_is_secret_in_warning exSecretWarn 100 [exSecretWarn.id] = false ∧
    check_if_is_secret_in_warning exSecretNote 100 [] = false :=
  ⟨(c6_whitelist_and_type_eliminate_warning exSecretWarn 100 [exSecretWarn.id]).1
      (by decide),
   (c6_whitelist_and_type_eliminate_warning exSecretNote 100 []).2 (by decide)⟩

/-- C5 (code evaluation): a successful export raises `SystemExit` with the
confirmation message as a string argument, and by Python's `SystemExit`
semantics a non-integer argument makes the process exit status 1, not 0. -/
theorem c5_export_exit_status :
    (export_secret_state exVaultOne "out.csv" 100 []).2 =
      ExitArg.message "Exported secret data to out.csv." ∧
    pyExitStatus (export_secret_state exVaultOne "out.csv" 100 []).2 = 1 ∧
    pyExitStatus (export_secret_state exVaultOne "out.csv" 100 []).2 ≠ 0 := by
  refine ⟨rfl, rfl, by decide⟩

lemma round2_nonneg {q : ℚ} (h : 0 ≤ q) : 0 ≤ round2 q := by
  unfold round2
  have h1 : (0 : ℤ) ≤ round (q * 100) := by
    rw [round_eq]
    exact Int.floor_nonneg.mpr (by linarith)
  have h2 : (0 : ℚ) ≤ ((round (q * 100) : ℤ) : ℚ) := by exact_mod_cast h1
  linarith

lemma round2_le_100 {q : ℚ} (h : q ≤ 100) : round2 q ≤ 100 := by
  unfold round2
  have h0 : ((round (q * 100) : ℤ) : ℚ) ≤ q * 100 + 1 / 2 := by
    rw [round_eq]
    exact_mod_cast Int.floor_le (q * 100 + 1 / 2)
  have h1 : ((round (q * 100) : ℤ) : ℚ) < 10001 := by linarith
  have h2 : round (q * 100) < (10001 : ℤ) := by exact_mod_cast h1
  have h3 : round (q * 100) ≤ (10000 : ℤ) := by omega
  have h4 : ((round (q * 100) : ℤ) : ℚ) ≤ 10000 := by exact_mod_cast h3
  linarith

lemma abs_round2_sub (q : ℚ) : |round2 q - q| ≤ 1 / 200 := by
  unfold round2
  have heq : ((round (q * 100) : ℤ) : ℚ) / 100 - q =
      (((round (q * 100) : ℤ) : ℚ) - q * 100) / 100 := by ring
  rw [heq, abs_div]
  have h100 : |(100 : ℚ)| = 100 := by norm_num
  rw [h100]
  have h := abs_sub_round (q * 100)
  rw [abs_sub_comm] at h
  have := (div_le_div_iff_of_pos_right (show (0 : ℚ) < 100 by norm_num)).mpr h
  linarith

lemma updated_le_total (m : FolderMetrics) :
    m.number_of_updated_secrets ≤ m.number_of_secrets :=
  List.length_filter_le _ _

lemma ratio_bounds (m : FolderMetrics) (h : m.number_of_secrets ≠ 0) :
    0 ≤ (m.number_of_updated_secrets : ℚ) / (m.number_of_secrets : ℚ) * 100 ∧
    (m.number_of_updated_secrets : ℚ) / (m.number_of_secrets : ℚ) * 100 ≤ 100 := by
  have hn : (0 : ℚ) < (m.number_of_secrets : ℚ) := by
    exact_mod_cast Nat.pos_of_ne_zero h
  constructor
  · positivity
  · have hun : (m.number_of_updated_secrets : ℚ) ≤ (m.number_of_secrets : ℚ) := by
      exact_mod_cast updated_le_total m
    have h1 : (m.number_of_updated_secrets : ℚ) / (m.number_of_secrets : ℚ) ≤ 1 :=
      (div_le_one hn).mpr hun
    linarith

lemma percentage_done_eq (m : FolderMetrics) (h : m.number_of_secrets ≠ 0) :
    m.percentage_done =
      round2 ((m.number_of_updated_secrets : ℚ) / (m.number_of_secrets : ℚ) * 100) := by
  unfold FolderMetrics.percentage_done
  rw [if_pos h]
  dsimp only
  split
  next => rfl
  next hge =>
    have hle : round2 ((m.number_of_updated_secrets : ℚ) / (m.number_of_secrets : ℚ) * 100) ≤ 100 :=
      round2_le_100 (ratio_bounds m h).2
    have hge' := not_lt.mp hge
    linarith

/-- C4 (counterexample): on the empty folder-metrics list the total secret
count is zero and `final_report_data` reaches the division by zero (the
`none` outcome models the raised `ZeroDivisionError`) instead of reporting
0 percent done and 0 percent left. -/
theorem c4_counterexample :
    final_report_data [] = none ∧
    (([] : List FolderMetrics).map FolderMetrics.number_of_secrets).sum = 0 := by
  exact ⟨rfl, rfl⟩

/-- C4 (amended): the division in `final_report_data` is not guarded — it
fails with a division-by-zero error exactly when the total secret count is
zero, and on every other input it returns the totals with percent done plus
percent left equal to 100. -/
theorem c4_division_unguarded (folder_metrics : List FolderMetrics) :
    ((folder_metrics.map FolderMetrics.number_of_secrets).sum = 0 →
      final_report_data folder_metrics = none) ∧
    ((folder_metrics.map FolderMetrics.number_of_secrets).sum ≠ 0 →
      ∃ pd pl, final_report_data folder_metrics =
        some ((folder_metrics.map FolderMetrics.number_of_secrets).sum,
              (folder_metrics.map FolderMetrics.number_of_updated_secrets).sum,
              (folder_metrics.map FolderMetrics.number_of_secrets).sum -
                (folder_metrics.map FolderMetrics.number_of_updated_secrets).sum,
              pd, pl) ∧ pd + pl = 100) := by
  constructor
  · intro h
    unfold final_report_data
    simp [h]
  · intro h
    refine ⟨((folder_metrics.map FolderMetrics.number_of_updated_secrets).sum : ℚ) /
        ((folder_metrics.map FolderMetrics.number_of_secrets).sum : ℚ) * 100,
      100 - ((folder_metrics.map FolderMetrics.number_of_updated_secrets).sum : ℚ) /
        ((folder_metrics.map FolderMetrics.number_of_secrets).sum : ℚ) * 100, ?_, ?_⟩
    · unfold final_report_data
      simp [h]
    · ring

/-- Witness for C4's amended theorem: the error branch at the empty input,
and the success branch at a one-secret input. -/
theorem c4_division_unguarded_witness :
    final_report_data [] = none ∧
    (final_report_data [exMetricsOne]).isSome = true := by
  refine ⟨(c4_division_unguarded []).1 rfl, ?_⟩
  obtain ⟨pd, pl, heq, -⟩ := (c4_division_unguarded [exMetricsOne]).2 (by decide)
  rw [heq]
  rfl

/-- C3: for every folder metrics value, percentage done plus percentage left
is 100 within rounding (at most 1/100 apart), both percentages lie in
[0, 100], and a folder with zero secrets reports exactly 100 done and 0
left. -/
theorem c3_percentage_invariants (m : FolderMetrics) :
    |m.percentage_done + m.percentage_left - 100| ≤ 1 / 100 ∧
    0 ≤ m.percentage_done ∧ m.percentage_done ≤ 100 ∧
    0 ≤ m.percentage_left ∧ m.percentage_left ≤ 100 ∧
    (m.number_of_secrets = 0 → m.percentage_done = 100 ∧ m.percentage_left = 0) := by
  by_cases h : m.number_of_secrets = 0
  · have hd : m.percentage_done = 100 := by
      unfold FolderMetrics.percentage_done
      rw [if_neg (not_not_intro h)]
    have hl : m.percentage_left = 0 := by
      unfold FolderMetrics.percentage_left
      rw [if_neg (not_not_intro h)]
    rw [hd, hl]
    norm_num
  · obtain ⟨hx0, hx100⟩ := ratio_bounds m h
    have hd : m.percentage_done =
        round2 ((m.number_of_updated_secrets : ℚ) / (m.number_of_secrets : ℚ) * 100) :=
      percentage_done_eq m h
    have hl : m.percentage_left =
        round2 (100 - (m.number_of_updated_secrets : ℚ) / (m.number_of_secrets : ℚ) * 100) := by
      unfold FolderMetrics.percentage_left
      rw [if_pos h]
    set x := (m.number_of_updated_secrets : ℚ) / (m.number_of_secrets : ℚ) * 100 with hxdef
    have h1 : |round2 x - x| ≤ 1 / 200 := abs_round2_sub x
    have h2 : |round2 (100 - x) - (100 - x)| ≤ 1 / 200 := abs_round2_sub (100 - x)
    refine ⟨?_, ?_, ?_, ?_, ?_, fun hc => absurd hc h⟩
    · rw [hd, hl]
      have hsplit : round2 x + round2 (100 - x) - 100 =
          (round2 x - x) + (round2 (100 - x) - (100 - x)) := by ring
      rw [hsplit]
      calc |(round2 x - x) + (round2 (100 - x) - (100 - x))|
          ≤ |round2 x - x| + |round2 (100 - x) - (100 - x)| := abs_add _ _
        _ ≤ 1 / 200 + 1 / 200 := add_le_add h1 h2
        _ = 1 / 100 := by norm_num
    · rw [hd]; exact round2_nonneg hx0
    · rw [hd]; exact round2_le_100 hx100
    · rw [hl]; exact round2_nonneg (by linarith)
    · rw [hl]; exact round2_le_100 (by linarith)

/-- Witness for C3 at a folder with zero secrets. -/
theorem c3_percentage_invariants_witness :
    FolderMetrics.percentage_done exMetricsEmpty = 100 ∧
    FolderMetrics.percentage_left exMetricsEmpty = 0 :=
  (c3_percentage_invariants exMetricsEmpty).2.2.2.2.2 rfl

lemma isPySpace_eq_false_of_isDigit {c : Char} (h : c.isDigit = true) :
    isPySpace c = false := by
  cases hb : isPySpace c with
  | false => rfl
  | true =>
    exfalso
    unfold isPySpace at hb
    simp only [Bool.or_eq_true, decide_eq_true_eq] at hb
    have hc : c = ' ' ∨ c = '\t' ∨ c = '\n' ∨ c = '\x0b' ∨ c = '\x0c' ∨ c = '\r' := by
      tauto
    rcases hc with h1 | h1 | h1 | h1 | h1 | h1 <;> subst h1 <;>
      exact absurd h (by decide)

lemma dropWhile_isPySpace_of_all_digits {l : List Char}
    (h : l.all Char.isDigit = true) : l.dropWhile isPySpace = l := by
  cases l with
  | nil => rfl
  | cons c rest =>
    have hc : c.isDigit = true := by
      simp only [List.all_cons, Bool.and_eq_true] at h
      exact h.1
    simp [List.dropWhile_cons, isPySpace_eq_false_of_isDigit hc]

lemma stripPySpaces_of_all_digits {l : List Char}
    (h : l.all Char.isDigit = true) : stripPySpaces l = l := by
  unfold stripPySpaces
  rw [dropWhile_isPySpace_of_all_digits h]
  rw [dropWhile_isPySpace_of_all_digits (by simpa using h)]
  exact List.reverse_reverse l

lemma pyDigitTail_of_all_digits :
    ∀ {l : List Char}, l.all Char.isDigit = true → pyDigitTail l = true
  | [], _ => rfl
  | c :: rest, h => by
    simp only [List.all_cons, Bool.and_eq_true] at h
    have hcu : ¬ c = '_' := by
      intro he
      subst he
      exact absurd h.1 (by decide)
    unfold pyDigitTail
    rw [if_neg hcu]
    simp [h.1, pyDigitTail_of_all_digits h.2]

lemma pyIntParses_of_all_digits {s : String} (hne : s.toList ≠ [])
    (h : s.toList.all Char.isDigit = true) : pyIntParses s = true := by
  unfold pyIntParses
  rw [stripPySpaces_of_all_digits h]
  cases hl : s.toList with
  | nil => exact absurd hl hne
  | cons c rest =>
    rw [hl] at h
    simp only [List.all_cons, Bool.and_eq_true] at h
    have hsign : pyStripSign (c :: rest) = c :: rest := by
      show (if c = '+' ∨ c = '-' then rest else c :: rest) = c :: rest
      rw [if_neg]
      rintro (rfl | rfl) <;> exact absurd h.1 (by decide)
    rw [hsign]
    simp [h.1, pyDigitTail_of_all_digits h.2]

/-- C7 (counterexample): the string with a leading plus sign and 17 digits
is accepted by `is_valid_secret_id` (Python's `int()` accepts it and its
length is 18), yet it is not a purely-numeric digits-only string — so the
claimed "digits only" characterization of acceptance fails. -/
theorem c7_counterexample :
    is_valid_secret_id "+12345678901234567" = true ∧
    ("+12345678901234567".toList.all Char.isDigit) = false := by
  exact ⟨by decide, by decide⟩

/-- C7 (amended): an entry is accepted iff Python's `int()` parses it (which
extends digits-only strings with optional surrounding whitespace, an
optional leading sign, and single underscores between digits) and its raw
length is 18 or 19; every nonempty digits-only string of length 18 or 19 is
accepted; and validation failure reports exactly the offending ids. -/
theorem c7_whitelist_validation :
    (∀ s : String, s.toList ≠ [] → s.toList.all Char.isDigit = true →
        18 ≤ s.length → s.length ≤ 19 → is_valid_secret_id s = true) ∧
    (∀ s : String, is_valid_secret_id s = true →
        pyIntParses s = true ∧ 18 ≤ s.length ∧ s.length ≤ 19) ∧
    (∀ ids : List String, (∀ i ∈ ids, is_valid_secret_id i = true) →
        validate_secret_ids ids = (true, ids)) ∧
    (∀ ids : List String, (∃ i ∈ ids, is_valid_secret_id i = false) →
        validate_secret_ids ids =
          (false, ids.filter (fun i => !is_valid_secret_id i))) := by
  refine ⟨?_, ?_, ?_, ?_⟩
  · intro s hne hdig h18 h19
    unfold is_valid_secret_id
    simp [pyIntParses_of_all_digits hne hdig, h18, h19]
  · intro s h
    unfold is_valid_secret_id at h
    simp only [Bool.and_eq_true, decide_eq_true_eq] at h
    exact ⟨h.1, h.2.1, h.2.2⟩
  · intro ids h
    unfold validate_secret_ids
    have hf : ids.filter (fun i => !is_valid_secret_id i) = [] := by
      rw [List.filter_eq_nil_iff]
      intro i hi
      simp [h i hi]
    simp [hf]
  · intro ids hex
    obtain ⟨i, hi, hvi⟩ := hex
    unfold validate_secret_ids
    have hne : ids.filter (fun i => !is_valid_secret_id i) ≠ [] := by
      intro hc
      rw [List.filter_eq_nil_iff] at hc
      exact (hc i hi) (by simp [hvi])
    simp [hne]

/-- Witness for C7's amended theorem: a digits-only 18-digit id is accepted,
and the invalid entry list containing only `abc` is rejected with exactly
that entry reported. -/
theorem c7_whitelist_validation_witness :
    is_valid_secret_id "123456789012345678" = true ∧
    validate_secret_ids ["abc"] = (false, ["abc"]) := by
  constructor
  · exact c7_whitelist_validation.1 "123456789012345678" (by decide) (by decide)
      (by decide) (by decide)
  · have h := c7_whitelist_validation.2.2.2 ["abc"] ⟨"abc", by decide, by decide⟩
    simpa using h

lemma create_report_tables_eq (fms : List FolderMetrics) (ro so : String)
    (rev : Bool) :
    (create_report fms ro so rev).1 =
      (if ro = "all" then ["personal", "shared"] else [ro]).map (fun t =>
        python_list_sort so rev (fms.filter (fun f =>
          if t = "personal" then f.is_personal else !f.is_personal))) := rfl

lemma python_sort_le_name_false_iff (a b : FolderMetrics) :
    python_sort_le "name" false a b ↔ a.fname ≤ b.fname := by
  unfold python_sort_le report_key_le
  simp

lemma python_sort_le_name_true_iff (a b : FolderMetrics) :
    python_sort_le "name" true a b ↔ b.fname ≤ a.fname := by
  unfold python_sort_le report_key_le
  simp

lemma python_sort_le_percentage_true_iff (a b : FolderMetrics) :
    python_sort_le "percentage" true a b ↔
      b.percentage_done ≤ a.percentage_done := by
  unfold python_sort_le report_key_le
  rw [if_pos rfl]
  rw [if_neg (show ¬("percentage" : String) = "name" by decide)]
  simp

lemma sorted_python_list_sort_name (rev : Bool) (l : List FolderMetrics) :
    List.Sorted (python_sort_le "name" rev) (python_list_sort "name" rev l) := by
  unfold python_list_sort
  haveI ht : IsTotal FolderMetrics (python_sort_le "name" rev) := ⟨fun a b => by
    cases rev
    · rw [python_sort_le_name_false_iff, python_sort_le_name_false_iff]
      exact le_total a.fname b.fname
    · rw [python_sort_le_name_true_iff, python_sort_le_name_true_iff]
      exact le_total b.fname a.fname⟩
  haveI htr : IsTrans FolderMetrics (python_sort_le "name" rev) := ⟨fun a b c hab hbc => by
    cases rev
    · rw [python_sort_le_name_false_iff] at hab hbc ⊢
      exact le_trans hab hbc
    · rw [python_sort_le_name_true_iff] at hab hbc ⊢
      exact le_trans hbc hab⟩
  exact List.sorted_insertionSort _ l

lemma percentage_done_exM30 : FolderMetrics.percentage_done exM30 = 30 := by
  rw [percentage_done_eq exM30 (by decide)]
  have h1 : FolderMetrics.number_of_updated_secrets exM30 = 3 := by decide
  have h2 : FolderMetrics.number_of_secrets exM30 = 10 := by decide
  rw [h1, h2]
  norm_num [round2]

lemma percentage_done_exM90 : FolderMetrics.percentage_done exM90 = 90 := by
  rw [percentage_done_eq exM90 (by decide)]
  have h1 : FolderMetrics.number_of_updated_secrets exM90 = 9 := by decide
  have h2 : FolderMetrics.number_of_secrets exM90 = 10 := by decide
  rw [h1, h2]
  norm_num [round2]

lemma percentage_done_exM60 : FolderMetrics.percentage_done exM60 = 60 := by
  rw [percentage_done_eq exM60 (by decide)]
  have h1 : FolderMetrics.number_of_updated_secrets exM60 = 6 := by decide
  have h2 : FolderMetrics.number_of_secrets exM60 = 10 := by decide
  rw [h1, h2]
  norm_num [round2]

lemma c8_percentage_table_eval :
    python_list_sort "percentage" true [exM30, exM90, exM60] =
      [exM90, exM60, exM30] := by
  have h1 : python_sort_le "percentage" true exM90 exM60 := by
    rw [python_sort_le_percentage_true_iff, percentage_done_exM90,
      percentage_done_exM60]
    norm_num
  have h2 : ¬ python_sort_le "percentage" true exM30 exM90 := by
    rw [python_sort_le_percentage_true_iff, percentage_done_exM30,
      percentage_done_exM90]
    norm_num
  have h3 : ¬ python_sort_le "percentage" true exM30 exM60 := by
    rw [python_sort_le_percentage_true_iff, percentage_done_exM30,
      percentage_done_exM60]
    norm_num
  unfold python_list_sort
  simp [List.insertionSort, List.orderedInsert, h1, h2, h3]

/-- C8 (counterexample): two personal root folders whose full paths are the
external name-plus-path derivation; with `sort_on=name` (no reverse) the
rendered row order has full paths `az` then `aba`, which is not
lexicographically ascending by full path — the sort key is the folder name,
not the full path. -/
theorem c8_counterexample :
    ((create_report [exM8a, exM8b] "personal" "name" false).1.map
        (fun t => t.map FolderMetrics.full_path)) = [["az", "aba"]] ∧
    ¬ (("az" : String) ≤ "aba") := by
  constructor
  · have h1 : python_sort_le "name" false exM8a exM8b := by
      rw [python_sort_le_name_false_iff]
      show ("a" : String) ≤ "ab"
      rw [String.le_iff_toList_le]
      decide
    have htable : python_list_sort "name" false [exM8a, exM8b] = [exM8a, exM8b] := by
      unfold python_list_sort
      simp [List.insertionSort, List.orderedInsert, h1]
    rw [create_report_tables_eq]
    rw [if_neg (show ¬("personal" : String) = "all" by decide)]
    have hf : [exM8a, exM8b].filter (fun f =>
        if ("personal" : String) = "personal" then f.is_personal
        else !f.is_personal) = [exM8a, exM8b] := by decide
    rw [List.map_cons, List.map_nil, hf, htable]
    rfl
  · rw [String.le_iff_toList_le]
    decide

/-- C8 (amended): with `sort_on=name` each rendered table is ordered by the
folder NAME (the key `create_report` actually sorts on), ascending without
reverse and descending with it — not by the full path; and with
`sort_on=percentage, reverse=true` the fixed three-folder input with
percentages 30, 90 and 60 renders in the order 90, 60, 30. -/
theorem c8_report_sorting (folder_metrics : List FolderMetrics) (report_on : String) :
    (∀ t ∈ (create_report folder_metrics report_on "name" false).1,
        List.Sorted (fun a b : FolderMetrics => a.fname ≤ b.fname) t) ∧
    (∀ t ∈ (create_report folder_metrics report_on "name" true).1,
        List.Sorted (fun a b : FolderMetrics => b.fname ≤ a.fname) t) ∧
    ((create_report [exM30, exM90, exM60] "personal" "percentage" true).1.map
        (fun t => t.map FolderMetrics.percentage_done)) = [[90, 60, 30]] := by
  refine ⟨?_, ?_, ?_⟩
  · intro t ht
    rw [create_report_tables_eq] at ht
    simp only [List.mem_map] at ht
    obtain ⟨tn, -, rfl⟩ := ht
    exact (sorted_python_list_sort_name false _).imp
      (fun hab => (python_sort_le_name_false_iff _ _).mp hab)
  · intro t ht
    rw [create_report_tables_eq] at ht
    simp only [List.mem_map] at ht
    obtain ⟨tn, -, rfl⟩ := ht
    exact (sorted_python_list_sort_name true _).imp
      (fun hab => (python_sort_le_name_true_iff _ _).mp hab)
  · rw [create_report_tables_eq]
    rw [if_neg (show ¬("personal" : String) = "all" by decide)]
    have hf : [exM30, exM90, exM60].filter (fun f =>
        if ("personal" : String) = "personal" then f.is_personal
        else !f.is_personal) = [exM30, exM90, exM60] := by decide
    rw [List.map_cons, List.map_nil, hf, c8_percentage_table_eval]
    simp only [List.map_cons, List.map_nil]
    rw [percentage_done_exM30, percentage_done_exM60, percentage_done_exM90]

/-- Witness for C8's amended theorem: the first rendered table of a concrete
two-folder report with `sort_on=name` is sorted by folder name. -/
theorem c8_report_sorting_witness :
    List.Sorted (fun a b : FolderMetrics => a.fname ≤ b.fname)
      (((create_report [exM8a, exM8b] "personal" "name" false).1.head?).getD []) := by
  have h := (c8_report_sorting [exM8a, exM8b] "personal").1
  apply h
  rw [create_report_tables_eq]
  rw [if_neg (show ¬("personal" : String) = "all" by decide)]
  simp only [List.map_cons, List.map_nil, List.head?]
  exact List.mem_singleton_self _

lemma export_rows_length (folders : List Folder) (cutoff_date : Int)
    (warning_whitelist : List String) :
    (export_rows folders cutoff_date warning_whitelist).length =
      (folders.map (fun f => f.secrets.length)).sum := by
  induction folders with
  | nil => rfl
  | cons f rest ih =>
    unfold export_rows at ih ⊢
    rw [List.flatMap_cons, List.length_append, List.length_map, List.map_cons,
      List.sum_cons, ih]

/-- C9: the CSV export consists of exactly one header row followed by
exactly one row per secret occurrence across every folder (unaggregated);
the 10-field header order matches the data-row tuple order positionally;
and the status field is `NOT_OK` exactly when the secret's password-change
timestamp is before the cutoff, `OK` otherwise. -/
theorem c9_csv_export_shape (lastpass : Lastpass) (filename : String)
    (cutoff_date : Int) (warning_whitelist : List String) :
    (export_secret_state lastpass filename cutoff_date warning_whitelist).1.length
        = 1 + (lastpass.folders.map (fun f => f.secrets.length)).sum ∧
    (export_secret_state lastpass filename cutoff_date warning_whitelist).1.head?
        = some csv_headers ∧
    csv_headers.length = 10 ∧
    (∀ folder ∈ lastpass.folders, ∀ secret ∈ folder.secrets,
      csv_row folder secret cutoff_date warning_whitelist ∈
        (export_secret_state lastpass filename cutoff_date warning_whitelist).1.tail) ∧
    (∀ row ∈ (export_secret_state lastpass filename cutoff_date warning_whitelist).1.tail,
      ∃ folder ∈ lastpass.folders, ∃ secret ∈ folder.secrets,
        row = csv_row folder secret cutoff_date warning_whitelist) ∧
    (∀ folder secret,
      (csv_row folder secret cutoff_date warning_whitelist).length = csv_headers.length ∧
      (csv_row folder secret cutoff_date warning_whitelist)[0]? = some folder.full_path ∧
      (csv_row folder secret cutoff_date warning_whitelist)[1]? = some secret.id ∧
      (csv_row folder secret cutoff_date warning_whitelist)[2]? = some secret.sname ∧
      (csv_row folder secret cutoff_date warning_whitelist)[3]? = some secret.url ∧
      (csv_row folder secret cutoff_date warning_whitelist)[4]? =
        some (username_or_type secret) ∧
      (csv_row folder secret cutoff_date warning_whitelist)[5]? =
        some (toString secret.last_modified_datetime) ∧
      (csv_row folder secret cutoff_date warning_whitelist)[6]? =
        some (toString secret.last_touch_datetime) ∧
      (csv_row folder secret cutoff_date warning_whitelist)[7]? =
        some (toString secret.last_password_change_datetime) ∧
      (csv_row folder secret cutoff_date warning_whitelist)[8]? =
        some (if secret.secret_updated_datetime < cutoff_date then "NOT_OK" else "OK") ∧
      (csv_row folder secret cutoff_date warning_whitelist)[9]? =
        some (pyBoolStr
          (check_if_is_secret_in_warning secret cutoff_date warning_whitelist))) := by
  refine ⟨?_, rfl, rfl, ?_, ?_, ?_⟩
  · show (csv_headers :: export_rows lastpass.folders cutoff_date warning_whitelist).length = _
    rw [List.length_cons, export_rows_length]
    omega
  · intro folder hf secret hs
    show _ ∈ export_rows lastpass.folders cutoff_date warning_whitelist
    unfold export_rows
    exact List.mem_flatMap_of_mem hf (List.mem_map_of_mem _ hs)
  · intro row hrow
    have hrow' : row ∈ export_rows lastpass.folders cutoff_date warning_whitelist := hrow
    unfold export_rows at hrow'
    rw [List.mem_flatMap] at hrow'
    obtain ⟨folder, hf, hr⟩ := hrow'
    rw [List.mem_map] at hr
    obtain ⟨secret, hs, rfl⟩ := hr
    exact ⟨folder, hf, secret, hs, rfl⟩
  · intro folder secret
    exact ⟨rfl, rfl, rfl, rfl, rfl, rfl, rfl, rfl, rfl, rfl, rfl⟩

/-- Witness for C9 at a one-folder one-secret vault. -/
theorem c9_csv_export_shape_witness :
    csv_row exFolderOne exSecretBase 100 [] ∈
      (export_secret_state exVaultOne "o.csv" 100 []).1.tail :=
  (c9_csv_export_shape exVaultOne "o.csv" 100 []).2.2.2.1 exFolderOne (by decide)
    exSecretBase (by decide)

lemma dictHasKey_iff_mem {d : FolderDict} {k : String} :
    dictHasKey d k = true ↔ k ∈ d.map Prod.fst := by
  unfold dictHasKey
  rw [List.any_eq_true]
  constructor
  · rintro ⟨kv, hkv, he⟩
    simp only [decide_eq_true_eq] at he
    subst he
    exact List.mem_map_of_mem _ hkv
  · intro hk
    rw [List.mem_map] at hk
    obtain ⟨kv, hkv, he⟩ := hk
    exact ⟨kv, hkv, by simp [he]⟩

lemma mem_of_mem_dictInsert {k : String} {v : Folder} :
    ∀ {d : FolderDict} {kv}, kv ∈ dictInsert k v d → kv = (k, v) ∨ kv ∈ d := by
  intro d
  induction d with
  | nil =>
    intro kv hkv
    simp only [dictInsert] at hkv
    exact Or.inl (List.mem_singleton.mp hkv)
  | cons kv0 rest ih =>
    intro kv hkv
    simp only [dictInsert] at hkv
    by_cases h : kv0.1 = k
    · rw [if_pos h] at hkv
      rcases List.mem_cons.mp hkv with he | hm
      · exact Or.inl he
      · exact Or.inr (List.mem_cons_of_mem _ hm)
    · rw [if_neg h] at hkv
      rcases List.mem_cons.mp hkv with he | hm
      · exact Or.inr (he ▸ List.mem_cons_self _ _)
      · rcases ih hm with he | hm'
        · exact Or.inl he
        · exact Or.inr (List.mem_cons_of_mem _ hm')

lemma keys_dictInsert (k : String) (v : Folder) :
    ∀ d : FolderDict,
      (dictInsert k v d).map Prod.fst =
        if dictHasKey d k = true then d.map Prod.fst else d.map Prod.fst ++ [k] := by
  intro d
  induction d with
  | nil => simp [dictInsert, dictHasKey]
  | cons kv0 rest ih =>
    by_cases h : kv0.1 = k
    · have hk : dictHasKey (kv0 :: rest) k = true := by
        unfold dictHasKey
        simp [List.any_cons, h]
      rw [if_pos hk]
      simp only [dictInsert, if_pos h, List.map_cons]
      rw [h]
    · have hk : dictHasKey (kv0 :: rest) k = dictHasKey rest k := by
        unfold dictHasKey
        simp [List.any_cons, h]
      simp only [dictInsert, if_neg h, List.map_cons, ih, hk]
      by_cases h2 : dictHasKey rest k = true
      · rw [if_pos h2, if_pos h2]
      · rw [if_neg h2, if_neg h2]
        rfl

lemma nodup_keys_dictInsert {k : String} {v : Folder} {d : FolderDict}
    (hnd : (d.map Prod.fst).Nodup) :
    ((dictInsert k v d).map Prod.fst).Nodup := by
  rw [keys_dictInsert]
  by_cases h : dictHasKey d k = true
  · rw [if_pos h]
    exact hnd
  · rw [if_neg h]
    have hk : k ∉ d.map Prod.fst := fun hm => h (dictHasKey_iff_mem.mpr hm)
    simp [List.nodup_append, hnd, hk]

lemma dictHasKey_dictInsert (k : String) (v : Folder) (x : String)
    (d : FolderDict) :
    dictHasKey (dictInsert k v d) x = true ↔
      x = k ∨ dictHasKey d x = true := by
  rw [dictHasKey_iff_mem, keys_dictInsert]
  by_cases h : dictHasKey d k = true
  · rw [if_pos h, ← dictHasKey_iff_mem]
    constructor
    · exact Or.inr
    · rintro (rfl | hm)
      · exact h
      · exact hm
  · rw [if_neg h, List.mem_append, List.mem_singleton, ← dictHasKey_iff_mem]
    tauto

lemma foldIns_nodup :
    ∀ (fs : List Folder) (d : FolderDict), (d.map Prod.fst).Nodup →
      ((fs.foldl (fun d f => dictInsert f.fname (Folder.mkAggregate f) d) d).map
        Prod.fst).Nodup := by
  intro fs
  induction fs with
  | nil => exact fun d h => h
  | cons f rest ih =>
    intro d hnd
    exact ih _ (nodup_keys_dictInsert hnd)

lemma foldIns_hasKey :
    ∀ (fs : List Folder) (d : FolderDict) (x : String),
      dictHasKey (fs.foldl (fun d f => dictInsert f.fname (Folder.mkAggregate f) d) d) x
          = true ↔
        x ∈ fs.map Folder.fname ∨ dictHasKey d x = true := by
  intro fs
  induction fs with
  | nil => simp
  | cons f rest ih =>
    intro d x
    rw [List.foldl_cons, ih, dictHasKey_dictInsert, List.map_cons, List.mem_cons]
    tauto

lemma foldIns_entries :
    ∀ (fs : List Folder) (d : FolderDict), (∀ kv ∈ d, kv.2.secrets = []) →
      ∀ kv ∈ fs.foldl (fun d f => dictInsert f.fname (Folder.mkAggregate f) d) d,
        kv.2.secrets = [] := by
  intro fs
  induction fs with
  | nil => exact fun d h => h
  | cons f rest ih =>
    intro d hd
    apply ih
    intro kv hkv
    rcases mem_of_mem_dictInsert hkv with rfl | hm
    · rfl
    · exact hd kv hm

lemma initRootDict_nodup (folders : List Folder) :
    ((initRootDict folders).map Prod.fst).Nodup :=
  foldIns_nodup _ [] (by simp)

lemma initRootDict_hasKey (folders : List Folder) (x : String) :
    dictHasKey (initRootDict folders) x = true ↔
      x ∈ (folders.filter (fun f => f.is_in_root)).map Folder.fname := by
  unfold initRootDict
  rw [foldIns_hasKey]
  simp [dictHasKey]

lemma initRootDict_entries (folders : List Folder) :
    ∀ kv ∈ initRootDict folders, kv.2.secrets = [] :=
  foldIns_entries _ [] (by simp)
lemma dictUpdate_isSome (k : String) (g : Folder → Folder) :
    ∀ d : FolderDict, (dictUpdate k g d).isSome = dictHasKey d k := by
  intro d
  induction d with
  | nil => rfl
  | cons kv rest ih =>
    by_cases h : kv.1 = k
    · simp [dictUpdate, if_pos h, dictHasKey, List.any_cons, h]
    · simp only [dictUpdate, if_neg h]
      rw [show dictHasKey (kv :: rest) k = dictHasKey rest k from by
        unfold dictHasKey
        simp [List.any_cons, h]]
      rw [← ih]
      cases dictUpdate k g rest <;> simp

lemma dictUpdate_eq_none_of_not_hasKey {k : String} {g : Folder → Folder}
    {d : FolderDict} (h : dictHasKey d k = false) :
    dictUpdate k g d = none := by
  cases ho : dictUpdate k g d with
  | none => rfl
  | some d' =>
    exfalso
    have hs := dictUpdate_isSome k g d
    rw [ho, h] at hs
    simp at hs

lemma keys_dictUpdate {k : String} {g : Folder → Folder} :
    ∀ {d d' : FolderDict}, dictUpdate k g d = some d' →
      d'.map Prod.fst = d.map Prod.fst := by
  intro d
  induction d with
  | nil => intro d' h; cases h
  | cons kv rest ih =>
    intro d' h
    by_cases hk : kv.1 = k
    · rw [show dictUpdate k g (kv :: rest) = some ((kv.1, g kv.2) :: rest) from by
        simp [dictUpdate, if_pos hk]] at h
      cases h
      simp
    · simp only [dictUpdate, if_neg hk] at h
      cases hrest : dictUpdate k g rest with
      | none => rw [hrest] at h; cases h
      | some rest' =>
        rw [hrest] at h
        simp only [Option.map_some'] at h
        cases h
        simp [ih hrest]

lemma keys_dictMapVals (g : String → Folder → Folder) (d : FolderDict) :
    (dictMapVals g d).map Prod.fst = d.map Prod.fst := by
  unfold dictMapVals
  rw [List.map_map]
  rfl

lemma dictMapVals_comp (g1 g2 : String → Folder → Folder) (d : FolderDict) :
    dictMapVals g2 (dictMapVals g1 d) = dictMapVals (fun k f => g2 k (g1 k f)) d := by
  unfold dictMapVals
  rw [List.map_map]
  rfl

lemma dictMapVals_congr {g1 g2 : String → Folder → Folder} (d : FolderDict)
    (h : ∀ k f, g1 k f = g2 k f) : dictMapVals g1 d = dictMapVals g2 d := by
  unfold dictMapVals
  apply List.map_congr_left
  intro kv _
  rw [h]

lemma dictMapVals_id_of_not_mem {k : String} {g : Folder → Folder} :
    ∀ {d : FolderDict}, k ∉ d.map Prod.fst →
      dictMapVals (fun x f => if x = k then g f else f) d = d := by
  intro d
  induction d with
  | nil => intro _; rfl
  | cons kv rest ih =>
    intro hk
    rw [List.map_cons, List.mem_cons] at hk
    push_neg at hk
    show (kv.1, if kv.1 = k then g kv.2 else kv.2) ::
        dictMapVals (fun x f => if x = k then g f else f) rest = kv :: rest
    rw [if_neg (fun he => hk.1 he.symm), ih hk.2, Prod.mk.eta]

lemma dictUpdate_char {k : String} {g : Folder → Folder} :
    ∀ {d : FolderDict}, (d.map Prod.fst).Nodup → dictHasKey d k = true →
      dictUpdate k g d =
        some (dictMapVals (fun x f => if x = k then g f else f) d) := by
  intro d
  induction d with
  | nil => intro _ h; cases h
  | cons kv rest ih =>
    intro hnd hk
    by_cases hkv : kv.1 = k
    · have hnotin : k ∉ rest.map Prod.fst := by
        rw [List.map_cons] at hnd
        rw [← hkv]
        exact (List.nodup_cons.mp hnd).1
      show (if kv.1 = k then some ((kv.1, g kv.2) :: rest)
          else (dictUpdate k g rest).map (fun d => kv :: d)) = _
      rw [if_pos hkv]
      show _ = some ((kv.1, if kv.1 = k then g kv.2 else kv.2) ::
        dictMapVals (fun x f => if x = k then g f else f) rest)
      rw [if_pos hkv, dictMapVals_id_of_not_mem hnotin]
    · have hk' : dictHasKey rest k = true := by
        unfold dictHasKey at hk
        rw [List.any_cons] at hk
        simp only [Bool.or_eq_true, decide_eq_true_eq] at hk
        rcases hk with h | h
        · exact absurd h hkv
        · exact h
      have hnd' : (rest.map Prod.fst).Nodup := by
        rw [List.map_cons] at hnd
        exact (List.nodup_cons.mp hnd).2
      show (if kv.1 = k then some ((kv.1, g kv.2) :: rest)
          else (dictUpdate k g rest).map (fun d => kv :: d)) = _
      rw [if_neg hkv, ih hnd' hk']
      show some (kv :: dictMapVals (fun x f => if x = k then g f else f) rest) = _
      show _ = some ((kv.1, if kv.1 = k then g kv.2 else kv.2) ::
        dictMapVals (fun x f => if x = k then g f else f) rest)
      rw [if_neg hkv, Prod.mk.eta]

lemma add_secrets_nil (f : Folder) : f.add_secrets [] = f := by
  unfold Folder.add_secrets
  cases f
  simp

lemma add_shared_secrets_cons {s : Secret} {rest : List Secret} {d : FolderDict}
    {n : String} (hsf : s.shared_folder = some n) :
    add_shared_secrets (s :: rest) d =
      match dictUpdate n (fun f => f.add_secret s) d with
      | some d1 => add_shared_secrets rest d1
      | none => none := by
  simp only [add_shared_secrets, hsf]

lemma add_shared_secrets_cons_none {s : Secret} {rest : List Secret}
    {d : FolderDict} (hsf : s.shared_folder = none) :
    add_shared_secrets (s :: rest) d = none := by
  simp only [add_shared_secrets, hsf]

lemma add_shared_keys :
    ∀ (ss : List Secret) {d d' : FolderDict},
      add_shared_secrets ss d = some d' → d'.map Prod.fst = d.map Prod.fst := by
  intro ss
  induction ss with
  | nil =>
    intro d d' h
    simp only [add_shared_secrets] at h
    cases h
    rfl
  | cons s rest ih =>
    intro d d' h
    cases hsf : s.shared_folder with
    | none =>
      rw [add_shared_secrets_cons_none hsf] at h
      cases h
    | some n =>
      rw [add_shared_secrets_cons hsf] at h
      cases hupd : dictUpdate n (fun f => f.add_secret s) d with
      | none =>
        rw [hupd] at h
        cases h
      | some d1 =>
        rw [hupd] at h
        have h' : add_shared_secrets rest d1 = some d' := h
        rw [ih h', keys_dictUpdate hupd]

lemma add_shared_char :
    ∀ (ss : List Secret) (d : FolderDict),
      (d.map Prod.fst).Nodup →
      (∀ s ∈ ss, ∃ n, s.shared_folder = some n ∧ dictHasKey d n = true) →
      add_shared_secrets ss d =
        some (dictMapVals (fun k f =>
          f.add_secrets (ss.filter (fun s => s.shared_folder = some k))) d) := by
  intro ss
  induction ss with
  | nil =>
    intro d _ _
    simp only [add_shared_secrets]
    congr 1
    rw [show (fun (k : String) (f : Folder) =>
        f.add_secrets (List.filter (fun s => decide (s.shared_folder = some k)) [])) =
        fun (k : String) (f : Folder) => f from by
      funext k f
      rw [List.filter_nil, add_secrets_nil]]
    unfold dictMapVals
    simp
  | cons s rest ih =>
    intro d hnd hmem
    obtain ⟨n, hsf, hkey⟩ := hmem s (List.mem_cons_self s rest)
    rw [add_shared_secrets_cons hsf]
    rw [dictUpdate_char hnd hkey]
    have hnd1 : ((dictMapVals (fun x f => if x = n then f.add_secret s else f) d).map
        Prod.fst).Nodup := by
      rw [keys_dictMapVals]
      exact hnd
    have hmem1 : ∀ s' ∈ rest, ∃ n',
        s'.shared_folder = some n' ∧
        dictHasKey (dictMapVals (fun x f => if x = n then f.add_secret s else f) d) n'
          = true := by
      intro s' hs'
      obtain ⟨n', hsf', hkey'⟩ := hmem s' (List.mem_cons_of_mem s hs')
      refine ⟨n', hsf', ?_⟩
      rw [dictHasKey_iff_mem, keys_dictMapVals]
      exact dictHasKey_iff_mem.mp hkey'
    show add_shared_secrets rest
        (dictMapVals (fun x f => if x = n then f.add_secret s else f) d) = _
    rw [ih _ hnd1 hmem1]
    rw [dictMapVals_comp]
    congr 1
    apply dictMapVals_congr
    intro k f
    rw [List.filter_cons]
    by_cases hk : k = n
    · subst hk
      rw [hsf]
      simp [Folder.add_secret, Folder.add_secrets]
    · rw [hsf]
      simp [hk, Ne.symm hk]

lemma get_folder_metrics_char (secrets : List Secret) (folders : List Folder)
    (cutoff_date : Int) (warning_whitelist : List String)
    (hshared : ∀ s ∈ secrets, ∀ n, s.shared_folder = some n →
        n ∈ (folders.filter (fun f => f.is_in_root)).map Folder.fname)
    (hpers : "\\" ∈ (folders.filter (fun f => f.is_in_root)).map Folder.fname) :
    get_folder_metrics secrets folders cutoff_date warning_whitelist =
      some ((initRootDict folders).map (fun kv =>
        ⟨{ kv.2 with secrets := (aggContent
            (secrets.filter (fun s => s.shared_folder.isSome))
            (secrets.filter (fun s => !s.shared_folder.isSome)) kv.1) },
         cutoff_date, warning_whitelist⟩)) := by
  have hnd := initRootDict_nodup folders
  have hmem : ∀ s ∈ secrets.filter (fun s => s.shared_folder.isSome),
      ∃ n, s.shared_folder = some n ∧ dictHasKey (initRootDict folders) n = true := by
    intro s hs
    rw [List.mem_filter] at hs
    obtain ⟨hss, hsome⟩ := hs
    obtain ⟨n, hn⟩ := Option.isSome_iff_exists.mp (by simpa using hsome)
    exact ⟨n, hn, (initRootDict_hasKey folders n).mpr (hshared s hss n hn)⟩
  have hadd := add_shared_char (secrets.filter (fun s => s.shared_folder.isSome))
    (initRootDict folders) hnd hmem
  show (match add_shared_secrets (secrets.filter (fun s => s.shared_folder.isSome))
      (initRootDict folders) with
    | none => none
    | some d =>
      match dictUpdate "\\"
          (fun f => f.add_secrets (secrets.filter (fun s => !s.shared_folder.isSome))) d with
      | none => none
      | some d' =>
        some (d'.map (fun (kv : String × Folder) =>
          (⟨kv.2, cutoff_date, warning_whitelist⟩ : FolderMetrics)))) = _
  rw [hadd]
  have hnd1 : ((dictMapVals (fun k f => f.add_secrets
      ((secrets.filter (fun s => s.shared_folder.isSome)).filter
        (fun s => s.shared_folder = some k))) (initRootDict folders)).map
      Prod.fst).Nodup := by
    rw [keys_dictMapVals]
    exact hnd
  have hkey1 : dictHasKey (dictMapVals (fun k f => f.add_secrets
      ((secrets.filter (fun s => s.shared_folder.isSome)).filter
        (fun s => s.shared_folder = some k))) (initRootDict folders)) "\\" = true := by
    rw [dictHasKey_iff_mem, keys_dictMapVals]
    exact dictHasKey_iff_mem.mp ((initRootDict_hasKey folders "\\").mpr hpers)
  show (match dictUpdate "\\"
      (fun f => f.add_secrets (secrets.filter (fun s => !s.shared_folder.isSome)))
      (dictMapVals (fun k f => f.add_secrets
        ((secrets.filter (fun s => s.shared_folder.isSome)).filter
          (fun s => s.shared_folder = some k))) (initRootDict folders)) with
    | none => none
    | some d' =>
      some (d'.map (fun (kv : String × Folder) =>
        (⟨kv.2, cutoff_date, warning_whitelist⟩ : FolderMetrics)))) = _
  rw [dictUpdate_char hnd1 hkey1]
  show some ((dictMapVals (fun x f => if x = "\\" then
        f.add_secrets (secrets.filter (fun s => !s.shared_folder.isSome)) else f)
      (dictMapVals (fun k f => f.add_secrets
        ((secrets.filter (fun s => s.shared_folder.isSome)).filter
          (fun s => s.shared_folder = some k))) (initRootDict folders))).map
      (fun (kv : String × Folder) =>
        (⟨kv.2, cutoff_date, warning_whitelist⟩ : FolderMetrics))) = _
  rw [dictMapVals_comp]
  congr 1
  unfold dictMapVals
  rw [List.map_map]
  apply List.map_congr_left
  intro kv hkv
  have hempty := initRootDict_entries folders kv hkv
  show (⟨(fun k f => if k = "\\" then
      (f.add_secrets ((secrets.filter (fun s => s.shared_folder.isSome)).filter
        (fun s => s.shared_folder = some k))).add_secrets
          (secrets.filter (fun s => !s.shared_folder.isSome))
      else f.add_secrets ((secrets.filter (fun s => s.shared_folder.isSome)).filter
        (fun s => s.shared_folder = some k))) kv.1 kv.2,
    cutoff_date, warning_whitelist⟩ : FolderMetrics) = _
  by_cases hk : kv.1 = "\\"
  · rw [hk]
    unfold aggContent Folder.add_secrets
    simp [hempty]
  · unfold aggContent Folder.add_secrets
    simp [hempty, hk]

/-- C10: rollup aggregation fails with a lookup error (`none`, the modelled
`KeyError`) whenever the input folder list has no root folder named by the
personal path marker, even when there are no shared secrets and the
personal-secret list is empty, because personal secrets are unconditionally
appended to the aggregate folder under that key. -/
theorem c10_rollup_requires_personal_root (secrets : List Secret)
    (folders : List Folder) (cutoff_date : Int) (warning_whitelist : List String)
    (h : "\\" ∉ (folders.filter (fun f => f.is_in_root)).map Folder.fname) :
    get_folder_metrics secrets folders cutoff_date warning_whitelist = none := by
  show (match add_shared_secrets (secrets.filter (fun s => s.shared_folder.isSome))
      (initRootDict folders) with
    | none => none
    | some d =>
      match dictUpdate "\\"
          (fun f => f.add_secrets (secrets.filter (fun s => !s.shared_folder.isSome))) d with
      | none => none
      | some d' =>
        some (d'.map (fun (kv : String × Folder) =>
          (⟨kv.2, cutoff_date, warning_whitelist⟩ : FolderMetrics)))) = none
  cases hadd : add_shared_secrets (secrets.filter (fun s => s.shared_folder.isSome))
      (initRootDict folders) with
  | none => rfl
  | some d =>
    have hkeys := add_shared_keys _ hadd
    have hnk : dictHasKey d "\\" = false := by
      cases hb : dictHasKey d "\\" with
      | false => rfl
      | true =>
        exfalso
        have hm := dictHasKey_iff_mem.mp hb
        rw [hkeys] at hm
        exact h ((initRootDict_hasKey folders "\\").mp (dictHasKey_iff_mem.mpr hm))
    show (match dictUpdate "\\"
        (fun f => f.add_secrets (secrets.filter (fun s => !s.shared_folder.isSome))) d with
      | none => none
      | some d' =>
        some (d'.map (fun (kv : String × Folder) =>
          (⟨kv.2, cutoff_date, warning_whitelist⟩ : FolderMetrics)))) = none
    rw [dictUpdate_eq_none_of_not_hasKey hnk]

/-- Witness for C10: the empty vault (no folders at all, hence no root
folder named by the personal path marker, no secrets) already fails. -/
theorem c10_rollup_requires_personal_root_witness :
    get_folder_metrics [] [] 0 [] = none :=
  c10_rollup_requires_personal_root [] [] 0 [] (by decide)

lemma sum_map_add_nat (l : List String) (f g : String → Nat) :
    (l.map (fun k => f k + g k)).sum = (l.map f).sum + (l.map g).sum := by
  induction l with
  | nil => rfl
  | cons a rest ih =>
    simp only [List.map_cons, List.sum_cons, ih]
    omega

lemma countP_eq_one_of_nodup_mem {keys : List String} {n : String}
    (hnd : keys.Nodup) (hm : n ∈ keys) :
    keys.countP (fun k => decide (k = n)) = 1 := by
  induction keys with
  | nil => cases hm
  | cons a rest ih =>
    rw [List.countP_cons]
    rcases List.mem_cons.mp hm with rfl | hm'
    · have hz : rest.countP (fun k => decide (k = n)) = 0 := by
        rw [List.countP_eq_zero]
        intro k hk
        simp only [decide_eq_true_eq]
        rintro rfl
        exact (List.nodup_cons.mp hnd).1 hk
      rw [hz]
      simp
    · rw [ih (List.nodup_cons.mp hnd).2 hm']
      have ha : decide (a = n) = false := by
        simp only [decide_eq_false_iff_not]
        rintro rfl
        exact (List.nodup_cons.mp hnd).1 hm'
      rw [ha]
      simp

lemma sum_map_indicator (keys : List String) (p : String → Bool) (c : Nat) :
    (keys.map (fun k => if p k = true then c else 0)).sum = c * keys.countP p := by
  induction keys with
  | nil => simp
  | cons a rest ih =>
    rw [List.map_cons, List.sum_cons, ih, List.countP_cons]
    by_cases h : p a = true
    · rw [if_pos h, h]
      simp [Nat.mul_add]
      omega
    · rw [if_neg h]
      simp only [Bool.not_eq_true] at h
      rw [h]
      simp

lemma sum_filter_lengths (keys : List String) (hnd : keys.Nodup) :
    ∀ ss : List Secret,
      (∀ s ∈ ss, ∃ n, s.shared_folder = some n ∧ n ∈ keys) →
      (keys.map (fun k =>
        (ss.filter (fun s => s.shared_folder = some k)).length)).sum = ss.length := by
  intro ss
  induction ss with
  | nil =>
    intro _
    simp
  | cons s rest ih =>
    intro hmem
    obtain ⟨n, hsf, hn⟩ := hmem s (List.mem_cons_self s rest)
    have hrest := ih (fun s' hs' => hmem s' (List.mem_cons_of_mem s hs'))
    have hpt : ∀ k : String,
        ((s :: rest).filter (fun s' => s'.shared_folder = some k)).length =
          (if decide (k = n) = true then 1 else 0) +
            (rest.filter (fun s' => s'.shared_folder = some k)).length := by
      intro k
      rw [List.filter_cons]
      by_cases hk : k = n
      · subst hk
        rw [hsf]
        simp
        omega
      · rw [hsf]
        have : (decide (some n = some k)) = false := by
          simp only [decide_eq_false_iff_not, Option.some.injEq]
          exact fun he => hk he.symm
        rw [this]
        simp [hk]
    rw [List.map_congr_left (fun k _ => hpt k)]
    rw [sum_map_add_nat, hrest, sum_map_indicator, countP_eq_one_of_nodup_mem hnd hn]
    simp [List.length_cons]
    omega

lemma filter_partition_length (secrets : List Secret) :
    (secrets.filter (fun s => s.shared_folder.isSome)).length +
      (secrets.filter (fun s => !s.shared_folder.isSome)).length = secrets.length := by
  induction secrets with
  | nil => rfl
  | cons s rest ih =>
    rw [List.filter_cons, List.filter_cons]
    by_cases h : s.shared_folder.isSome = true
    · rw [if_pos (by simp [h]), if_neg (by simp [h])]
      simp only [List.length_cons]
      omega
    · rw [if_neg (by simp [h]), if_pos (by simp [h])]
      simp only [List.length_cons]
      omega

lemma aggContent_length (sh pe : List Secret) (k : String) :
    (aggContent sh pe k).length =
      (sh.filter (fun s => s.shared_folder = some k)).length +
        (if decide (k = "\\") = true then pe.length else 0) := by
  unfold aggContent
  rw [List.length_append]
  by_cases h : k = "\\" <;> simp [h]

lemma mem_aggContent_iff_of_some {secrets : List Secret} {s : Secret} {n : String}
    (hs : s ∈ secrets) (hssf : s.shared_folder = some n) (k : String) :
    s ∈ aggContent (secrets.filter (fun s => s.shared_folder.isSome))
        (secrets.filter (fun s => !s.shared_folder.isSome)) k ↔ k = n := by
  unfold aggContent
  rw [List.mem_append, List.mem_filter]
  constructor
  · rintro (⟨-, hdec⟩ | hite)
    · simp only [decide_eq_true_eq] at hdec
      rw [hssf] at hdec
      exact ((Option.some.injEq n k).mp hdec).symm
    · by_cases hk : k = "\\"
      · rw [if_pos hk] at hite
        rw [List.mem_filter] at hite
        rw [hssf] at hite
        simp at hite
      · rw [if_neg hk] at hite
        cases hite
  · rintro rfl
    left
    refine ⟨List.mem_filter.mpr ⟨hs, by simp [hssf]⟩, by simp [hssf]⟩

lemma mem_aggContent_iff_of_none {secrets : List Secret} {s : Secret}
    (hs : s ∈ secrets) (hssf : s.shared_folder = none) (k : String) :
    s ∈ aggContent (secrets.filter (fun s => s.shared_folder.isSome))
        (secrets.filter (fun s => !s.shared_folder.isSome)) k ↔ k = "\\" := by
  unfold aggContent
  rw [List.mem_append, List.mem_filter]
  constructor
  · rintro (⟨hsh, -⟩ | hite)
    · rw [List.mem_filter] at hsh
      rw [hssf] at hsh
      simp at hsh
    · by_cases hk : k = "\\"
      · exact hk
      · rw [if_neg hk] at hite
        cases hite
  · rintro rfl
    right
    rw [if_pos rfl, List.mem_filter]
    exact ⟨hs, by simp [hssf]⟩

/-- C2: under the data-consistency precondition (every shared secret's
declared shared-folder name names a root folder of the input, and a root
folder named by the personal path marker exists), the rollup aggregation
succeeds, every input secret appears in exactly one aggregate folder, and
the sum of `number_of_secrets` over the aggregate folders equals the number
of input secrets. -/
theorem c2_rollup_partition (secrets : List Secret) (folders : List Folder)
    (cutoff_date : Int) (warning_whitelist : List String)
    (hshared : ∀ s ∈ secrets, ∀ n, s.shared_folder = some n →
        n ∈ (folders.filter (fun f => f.is_in_root)).map Folder.fname)
    (hpers : "\\" ∈ (folders.filter (fun f => f.is_in_root)).map Folder.fname) :
    ∃ ms, get_folder_metrics secrets folders cutoff_date warning_whitelist = some ms ∧
      (ms.map FolderMetrics.number_of_secrets).sum = secrets.length ∧
      ∀ s ∈ secrets, ms.countP (fun m => decide (s ∈ m.folder.secrets)) = 1 := by
  have hnd := initRootDict_nodup folders
  have hkeys : ∀ x : String, x ∈ (initRootDict folders).map Prod.fst ↔
      x ∈ (folders.filter (fun f => f.is_in_root)).map Folder.fname := fun x =>
    Iff.trans dictHasKey_iff_mem.symm (initRootDict_hasKey folders x)
  have hp' : "\\" ∈ (initRootDict folders).map Prod.fst := (hkeys "\\").mpr hpers
  refine ⟨_, get_folder_metrics_char secrets folders cutoff_date warning_whitelist
    hshared hpers, ?_, ?_⟩
  · rw [List.map_map]
    show ((initRootDict folders).map (fun kv => (aggContent
        (secrets.filter (fun s => s.shared_folder.isSome))
        (secrets.filter (fun s => !s.shared_folder.isSome)) kv.1).length)).sum
      = secrets.length
    rw [show (initRootDict folders).map (fun kv => (aggContent
        (secrets.filter (fun s => s.shared_folder.isSome))
        (secrets.filter (fun s => !s.shared_folder.isSome)) kv.1).length) =
      ((initRootDict folders).map Prod.fst).map (fun k => (aggContent
        (secrets.filter (fun s => s.shared_folder.isSome))
        (secrets.filter (fun s => !s.shared_folder.isSome)) k).length) from by
      rw [List.map_map]
      rfl]
    rw [List.map_congr_left (fun k _ => aggContent_length
      (secrets.filter (fun s => s.shared_folder.isSome))
      (secrets.filter (fun s => !s.shared_folder.isSome)) k)]
    rw [sum_map_add_nat]
    rw [sum_filter_lengths _ hnd _ (fun s hs => by
      rw [List.mem_filter] at hs
      obtain ⟨hss, hsome⟩ := hs
      obtain ⟨n, hn⟩ := Option.isSome_iff_exists.mp (by simpa using hsome)
      exact ⟨n, hn, (hkeys n).mpr (hshared s hss n hn)⟩)]
    rw [sum_map_indicator, countP_eq_one_of_nodup_mem hnd hp']
    rw [Nat.mul_one]
    exact filter_partition_length secrets
  · intro s hs
    rw [List.countP_map]
    show (initRootDict folders).countP (fun kv => decide (s ∈ aggContent
        (secrets.filter (fun s => s.shared_folder.isSome))
        (secrets.filter (fun s => !s.shared_folder.isSome)) kv.1)) = 1
    have hswap : ((initRootDict folders).map Prod.fst).countP (fun k => decide
        (s ∈ aggContent (secrets.filter (fun s => s.shared_folder.isSome))
          (secrets.filter (fun s => !s.shared_folder.isSome)) k)) =
        (initRootDict folders).countP (fun kv => decide (s ∈ aggContent
          (secrets.filter (fun s => s.shared_folder.isSome))
          (secrets.filter (fun s => !s.shared_folder.isSome)) kv.1)) := by
      rw [List.countP_map]
      rfl
    rw [← hswap]
    cases hssf : s.shared_folder with
    | some n =>
      have hc : ((initRootDict folders).map Prod.fst).countP (fun k => decide
          (s ∈ aggContent (secrets.filter (fun s => s.shared_folder.isSome))
            (secrets.filter (fun s => !s.shared_folder.isSome)) k)) =
          ((initRootDict folders).map Prod.fst).countP (fun k => decide (k = n)) :=
        List.countP_congr (fun k _ => by
          simp only [decide_eq_true_eq]
          exact mem_aggContent_iff_of_some hs hssf k)
      rw [hc]
      exact countP_eq_one_of_nodup_mem hnd ((hkeys n).mpr (hshared s hs n hssf))
    | none =>
      have hc : ((initRootDict folders).map Prod.fst).countP (fun k => decide
          (s ∈ aggContent (secrets.filter (fun s => s.shared_folder.isSome))
            (secrets.filter (fun s => !s.shared_folder.isSome)) k)) =
          ((initRootDict folders).map Prod.fst).countP (fun k => decide (k = "\\")) :=
        List.countP_congr (fun k _ => by
          simp only [decide_eq_true_eq]
          exact mem_aggContent_iff_of_none hs hssf k)
      rw [hc]
      exact countP_eq_one_of_nodup_mem hnd hp'

/-- Witness for C2 at a concrete two-folder vault with one personal and one
shared secret. -/
theorem c2_rollup_partition_witness :
    ∃ ms, get_folder_metrics [exSecretBase, exSecretShared]
        [exRootPersonal, exRootShared] 100 [] = some ms ∧
      (ms.map FolderMetrics.number_of_secrets).sum = 2 ∧
      ∀ s ∈ [exSecretBase, exSecretShared],
        ms.countP (fun m => decide (s ∈ m.folder.secrets)) = 1 := by
  obtain ⟨ms, h1, h2, h3⟩ := c2_rollup_partition [exSecretBase, exSecretShared]
    [exRootPersonal, exRootShared] 100 []
    (by
      intro s hs n hn
      rcases List.mem_cons.mp hs with rfl | hs'
      · rw [show exSecretBase.shared_folder = none from rfl] at hn
        cases hn
      · rcases List.mem_cons.mp hs' with rfl | hs''
        · rw [show exSecretShared.shared_folder = some "Shared1" from rfl] at hn
          have hn' : n = "Shared1" := by
            injection hn with h
            exact h.symm
          subst hn'
          decide
        · cases hs'')
    (by decide)
  exact ⟨ms, h1, by rw [h2]; rfl, h3⟩
